import Mathlib

/-!
Verification of the data-analyst-agent service (src/main.py) against its
natural-language specification.

The whole request handler `data_analyst_agent` (POST /api/) is shallowly
embedded: strings are `List Char`, the multipart form is a list of parts,
the LLM call and the script execution are inputs (the handler is a pure
function of the request parts, the LLM outcome and the execution outcome),
and the filesystem is an association log from resolved paths to contents.
The script extractor (main.py lines 104-128), the per-part upload loop
(lines 70-82), the result validation (lines 137-169), the blanket
`except Exception` (lines 171-173) and the `finally` cleanup (lines
174-178) are each translated directly from the source.
-/

namespace DAA

/-- Python `str.strip()` whitespace set (the ASCII part, which is all the
source's strings use). -/
def isPySpace (c : Char) : Bool :=
  c = ' ' || c = '\t' || c = '\n' || c = '\r' || c = '\x0b' || c = '\x0c'

/-- Python `s.strip()`: drop whitespace from both ends. -/
def pyStrip (s : List Char) : List Char :=
  ((s.dropWhile isPySpace).reverse.dropWhile isPySpace).reverse

/-- Python `s.split(sep)` for a one-character separator: `"" ↦ [""]`,
`"a\nb" ↦ ["a","b"]`, `"a\n" ↦ ["a",""]`. -/
def splitOnChar (sep : Char) : List Char → List (List Char)
  | [] => [[]]
  | c :: rest =>
    match splitOnChar sep rest with
    | [] => [[c]]
    | l :: ls => if c = sep then [] :: l :: ls else (c :: l) :: ls

/-- `script_content.split('\n')`. -/
def splitLines (s : List Char) : List (List Char) := splitOnChar '\n' s

/-- `'\n'.join(lines)`. -/
def joinLines : List (List Char) → List Char
  | [] => []
  | [l] => l
  | l :: ls => l ++ '\n' :: joinLines ls

/-- Index of the first occurrence of `pat` as a contiguous substring of `s`
(the start position the regex engine's leftmost literal match would use). -/
def findSub (pat : List Char) : List Char → Option Nat
  | [] => if pat.isPrefixOf [] then some 0 else none
  | c :: rest =>
    if pat.isPrefixOf (c :: rest) then some 0
    else (findSub pat rest).map (· + 1)

/-- First-occurrence search written the spec's way: the least index `i` of the
whole index range at which `pat` matches.  Used by `extractSpec` only. -/
def firstOccurrence (pat s : List Char) : Option Nat :=
  (List.range (s.length + 1)).find? (fun i => pat.isPrefixOf (s.drop i))

/-- The opening marker of the regex `r"```python\n(.*?)\n```"` (main.py:106). -/
def openPat : List Char := "```python\n".data

/-- The closing marker of the regex `r"```python\n(.*?)\n```"` (main.py:106). -/
def closePat : List Char := "\n```".data

/-- `re.search(r"```python\n(.*?)\n```", s, re.DOTALL)`: the interior of the
leftmost, shortest python-fenced block.  The leftmost match starts at the first
occurrence of the opening marker; the lazy `(.*?)` ends it at the first
occurrence of the closing marker after that.  When the first opening marker has
no closing marker after it, no later opening marker can have one either, so the
whole search fails. -/
def fenceContent (s : List Char) : Option (List Char) :=
  match findSub openPat s with
  | none => none
  | some i =>
    match findSub closePat (s.drop (i + openPat.length)) with
    | none => none
    | some j => some ((s.drop (i + openPat.length)).take j)

/-- `line.strip().startswith(('import ', 'from '))` (main.py:117). -/
def lineIsStart (l : List Char) : Bool :=
  "import ".data.isPrefixOf (pyStrip l) || "from ".data.isPrefixOf (pyStrip l)

/-- `lines[i].strip().startswith('print(json.dumps')` (main.py:123). -/
def lineIsEnd (l : List Char) : Bool :=
  "print(json.dumps".data.isPrefixOf (pyStrip l)

/-- Index of the first line satisfying `lineIsStart` (main.py:116-119). -/
def firstStartIdx : List (List Char) → Option Nat
  | [] => none
  | l :: ls =>
    if lineIsStart l then some 0 else (firstStartIdx ls).map (· + 1)

/-- `for i in range(len(lines)-1, start_index-1, -1)` (main.py:122-125): check
indices `start+k, start+k-1, ..., start` for the last print-JSON line. -/
def scanBack (ls : List (List Char)) (start : Nat) : Nat → Option Nat
  | 0 => if lineIsEnd (ls.getD start []) then some start else none
  | k + 1 =>
    if lineIsEnd (ls.getD (start + k + 1) []) then some (start + k + 1)
    else scanBack ls start k

/-- The fallback branch of the extractor (main.py:110-128): trim, split into
lines, take the inclusive slice from the first import line (default 0) to the
last print-JSON line at or after it (default the last line), and rejoin. -/
def extractFallback (t : List Char) : List Char :=
  let lines := splitLines (pyStrip t)
  let si := (firstStartIdx lines).getD 0
  let ei := (scanBack lines si (lines.length - 1 - si)).getD (lines.length - 1)
  joinLines ((lines.drop si).take (ei + 1 - si))

/-- The script extractor (main.py:104-128): the trimmed interior of the first
python-fenced block when the regex matches, the heuristic line-span fallback
otherwise. -/
def extract (t : List Char) : List Char :=
  match fenceContent t with
  | some c => pyStrip c
  | none => extractFallback t

/-- The extractor as the spec words it (§4.3): search for the first position
where a python-tagged fence opens, take its interior up to the first position
where a fence closes, trim it; otherwise fall back to the heuristic line span.
The occurrence searches are written as least-index searches over the whole
index range, to be compared with the implementation's `findSub` recursion. -/
def extractSpec (t : List Char) : List Char :=
  match firstOccurrence openPat t with
  | none => extractFallback t
  | some i =>
    match firstOccurrence closePat (t.drop (i + openPat.length)) with
    | none => extractFallback t
    | some j => pyStrip ((t.drop (i + openPat.length)).take j)

/-- Wrapping a script back in a python-tagged fence. -/
def fenceWrap (s : List Char) : List Char := openPat ++ s ++ closePat

/-- The concrete fenced block of the claim: `"```python\nprint(1)\n```"`. -/
def pyBlock : List Char := "```python\nprint(1)\n```".data

/-- `pyBlock` without its opening marker: `"print(1)\n```"`. -/
def blockTail : List Char := "print(1)\n```".data

/-- JSON values, for response bodies.  `json.loads` itself is a collaborator
(the Python standard library); the handler model is parametric in the parse
function it delegates to, see `handlerBody`. -/
inductive JsonVal where
  | null
  | bool (b : Bool)
  | int (n : Int)
  | str (s : List Char)
  | arr (xs : List JsonVal)
  | obj (kvs : List (List Char × JsonVal))

/-- One multipart form part: its `filename` (Python treats `None` and `""`
alike via `if not file.filename: continue`, modelled as `[]`) and content. -/
structure FormPart where
  filename : List Char
  content : List Char
deriving DecidableEq

/-- Outcome of `subprocess.run(["python3", script], timeout=...)`:
`TimeoutExpired` (carrying the partial output the code never looks at), or
an exit with code, captured stdout and captured stderr.  `check=True` raises
`CalledProcessError` exactly when the code is non-zero. -/
inductive ExecOutcome where
  | timeout (outSoFar errSoFar : List Char)
  | exited (code : Nat) (stdout stderr : List Char)
deriving DecidableEq

/-- Everything one request depends on: the form parts, the LLM call's outcome
(`.error msg` = the awaited call raised), and the subprocess outcome that
execution would produce if reached. -/
structure AgentInput where
  parts : List FormPart
  llm : Except (List Char) (List Char)
  exec : ExecOutcome

/-- An exception travelling to the outer `try` of the handler: either a
`fastapi.HTTPException` (status, detail) or a generic exception with message
`str(e)`. -/
inductive Raised where
  | http (status : Nat) (detail : List Char)
  | exc (msg : List Char)
deriving DecidableEq

/-- The filesystem under `/`, as a write log: resolved path (components from
the root) to content; a later entry for the same path overwrites an earlier
one. -/
abbrev Fs := List (List (List Char) × List Char)

/-- Content at `path`: the last write to it, if any. -/
def fsLookup (fs : Fs) (path : List (List Char)) : Option (List Char) :=
  (fs.reverse.find? (fun e => decide (e.1 = path))).map (·.2)

/-- Component-wise path normalization, as the OS resolves `..` and `.` inside
`open()`'s target: `..` pops a component, `.` and empty components vanish. -/
def normComps (cs : List (List Char)) : List (List Char) :=
  cs.foldl
    (fun acc c =>
      if c = [] then acc
      else if c = ".".data then acc
      else if c = "..".data then acc.dropLast
      else acc ++ [c]) []

/-- Where `open(os.path.join(work_dir, name))` lands: a name starting with
`/` replaces the work dir entirely (Python `os.path.join` semantics), any
other name is appended; the result is normalized. -/
def resolvePath (wd : List (List Char)) (name : List Char) : List (List Char) :=
  if name.head? = some '/' then normComps (splitOnChar '/' name)
  else normComps (wd ++ splitOnChar '/' name)

/-- `"questions.txt"`, the fixed task-description filename (main.py:79). -/
def qtxtName : List Char := "questions.txt".data

/-- State of the upload loop (main.py:66-81): the write log, the collected
filenames and the current `questions_content`. -/
structure LoopState where
  fs : Fs
  filenames : List (List Char)
  questions : List Char
deriving DecidableEq

/-- `filenames = []; questions_content = ""` before the loop. -/
def initLoop : LoopState := ⟨[], [], []⟩

/-- One iteration of the upload loop (main.py:70-81): skip a part with a falsy
filename; otherwise write its bytes at the joined path, record the filename,
and when the filename is exactly `"questions.txt"` read the just-written file
back as `questions_content`. -/
def processPart (wd : List (List Char)) (st : LoopState) (p : FormPart) : LoopState :=
  if p.filename = [] then st
  else
    { fs := st.fs ++ [(resolvePath wd p.filename, p.content)]
      filenames := st.filenames ++ [p.filename]
      questions := if p.filename = qtxtName then p.content else st.questions }

/-- `"questions.txt is missing."` (main.py:84). -/
def missingMsg : List Char := "questions.txt is missing.".data

/-- `"Analysis task timed out."` (main.py:160). -/
def timeoutMsg : List Char := "Analysis task timed out.".data

/-- `"Agent script produced invalid JSON."` (main.py:156). -/
def invalidMsg : List Char := "Agent script produced invalid JSON.".data

/-- `"Script execution failed"` (main.py:166). -/
def execFailMsg : List Char := "Script execution failed".data

/-- `"agent_script.py"` (main.py:130). -/
def scriptName : List Char := "agent_script.py".data

/-- The inner try of the handler (main.py:137-169), as a map from the
execution outcome to what that block produces: on `TimeoutExpired`, raise
`HTTPException(504)`; on non-zero exit, return directly a 500 `JSONResponse`
whose body has the keys `"error"` and `"stderr"` (the captured stderr); on
zero exit, parse the *stripped stdout* with the JSON parser `parse` and
either return it verbatim with 200 or raise `HTTPException(500)`. -/
def resultValidator (parse : List Char → Option JsonVal) (r : ExecOutcome) :
    Except Raised (Nat × JsonVal) :=
  match r with
  | .timeout _ _ => .error (.http 504 timeoutMsg)
  | .exited 0 stdout _ =>
    match parse (pyStrip stdout) with
    | some v => .ok (200, v)
    | none => .error (.http 500 invalidMsg)
  | .exited (_ + 1) _ stderr =>
    .ok (500, .obj [("error".data, .str execFailMsg), ("stderr".data, .str stderr)])

/-- The body of the handler's outer `try` (main.py:64-169): run the upload
loop; raise `HTTPException(400)` when `questions_content` is falsy; propagate
an LLM failure as a generic exception; otherwise extract the script from the
model output, write it into the workspace, and validate the execution
outcome.  Returns the block's result together with the write log (writes
survive a later exception). -/
def handlerBody (parse : List Char → Option JsonVal) (wd : List (List Char))
    (inp : AgentInput) : Except Raised (Nat × JsonVal) × Fs :=
  let st := inp.parts.foldl (processPart wd) initLoop
  if st.questions = [] then (.error (.http 400 missingMsg), st.fs)
  else
    match inp.llm with
    | .error m => (.error (.exc m), st.fs)
    | .ok text =>
      (resultValidator parse inp.exec,
       st.fs ++ [(resolvePath wd scriptName, extract text)])

/-- `str(e)` of a raised exception: starlette's `HTTPException.__str__` is
`f"{status_code}: {detail}"`; a generic exception keeps its message. -/
def strOfRaised : Raised → List Char
  | .http s d => Nat.toDigits 10 s ++ ": ".data ++ d
  | .exc m => m

/-- The outer `except Exception as e` (main.py:171-173) followed by FastAPI's
rendering: a value returned from the `try` passes through unchanged; any
exception — `fastapi.HTTPException` is a subclass of `Exception`, so the
handler's own 400/504/500 raises included — is re-raised as
`HTTPException(status_code=500, detail=str(e))`, which FastAPI renders as a
500 response with body `{"detail": str(e)}`. -/
def wrapResponse : Except Raised (Nat × JsonVal) → Nat × JsonVal
  | .ok r => r
  | .error e => (500, .obj [("detail".data, .str (strOfRaised e))])

/-- Everything observable once the handler has completed. -/
structure HandlerResult where
  response : Nat × JsonVal
  fsAfter : Fs
  workspaceExists : Bool

/-- The `finally` block (main.py:174-178): when the workspace directory still
exists, `shutil.rmtree` deletes it with everything inside it; afterwards the
directory does not exist. -/
def finalizeSession (wd : List (List Char)) (fs : Fs) (dirExists : Bool) :
    Fs × Bool :=
  if dirExists then (fs.filter (fun e => !wd.isPrefixOf e.1), false)
  else (fs, dirExists)

/-- The whole `data_analyst_agent` handler (main.py:58-178) for one request:
the try body, the blanket `except`, then the `finally` (the workspace
directory, created by `os.makedirs` at entry, still exists when the `finally`
runs). -/
def handlerModel (parse : List Char → Option JsonVal) (wd : List (List Char))
    (inp : AgentInput) : HandlerResult :=
  let r := handlerBody parse wd inp
  let fin := finalizeSession wd r.2 true
  { response := wrapResponse r.1
    fsAfter := fin.1
    workspaceExists := fin.2 }

/-- The last element of `parts` satisfying `pred`, the spec-side description of
"collisions overwrite" / "the last matching part wins". -/
def lastMatch (pred : FormPart → Bool) : List FormPart → Option FormPart
  | [] => none
  | p :: ps =>
    match lastMatch pred ps with
    | some q => some q
    | none => if pred p then some p else none

/-- A concrete session working directory, `/tmp/<session-id>`. -/
def wd0 : List (List Char) := ["tmp".data, "sess1".data]

/-- A concrete JSON parser for witnesses: accepts exactly the text `"1"`. -/
def parseTest (s : List Char) : Option JsonVal :=
  if s = "1".data then some (.int 1) else none

theorem isPrefixOf_append_self (p r : List Char) : p.isPrefixOf (p ++ r) = true := by
  induction p with
  | nil => simp [List.isPrefixOf]
  | cons c cs ih => simp [List.isPrefixOf, ih]

theorem isPrefixOf_self (p : List Char) : p.isPrefixOf p = true := by
  have h := isPrefixOf_append_self p []
  rwa [List.append_nil] at h

theorem length_le_of_isPrefixOf {p s : List Char} (h : p.isPrefixOf s = true) :
    p.length ≤ s.length := by
  induction p generalizing s with
  | nil => simp
  | cons c cs ih =>
    cases s with
    | nil => simp [List.isPrefixOf] at h
    | cons b bs =>
      simp only [List.isPrefixOf, Bool.and_eq_true] at h
      simpa using ih h.2

theorem isPrefixOf_append_left (p a b : List Char) (h : p.length ≤ a.length) :
    p.isPrefixOf (a ++ b) = p.isPrefixOf a := by
  induction p generalizing a with
  | nil => simp [List.isPrefixOf]
  | cons c cs ih =>
    cases a with
    | nil => simp at h
    | cons x xs =>
      have hx := ih xs (by simpa using h)
      simp [List.isPrefixOf, List.append_eq, hx]

theorem isPrefixOf_append_split {p d r : List Char} (h : p.isPrefixOf (d ++ r) = true)
    (hlen : d.length < p.length) : (p.drop d.length).isPrefixOf r = true := by
  induction d generalizing p with
  | nil => simpa using h
  | cons x xs ih =>
    cases p with
    | nil => simp at hlen
    | cons c cs =>
      simp only [List.cons_append, List.isPrefixOf, Bool.and_eq_true] at h
      simpa using ih h.2 (by simpa using hlen)

theorem findSub_eq_some_iff (pat s : List Char) (n : Nat) :
    findSub pat s = some n ↔
      (pat.isPrefixOf (s.drop n) = true ∧
       ∀ i, i < n → pat.isPrefixOf (s.drop i) = false) := by
  induction s generalizing n with
  | nil =>
    simp only [findSub, List.drop_nil]
    cases hp : pat.isPrefixOf [] with
    | true =>
      constructor
      · intro h
        have hn : n = 0 := by simpa using h.symm
        subst hn
        exact ⟨rfl, fun i hi => absurd hi (Nat.not_lt_zero i)⟩
      · rintro ⟨-, hmin⟩
        have hn : n = 0 := by
          by_contra hne
          have h0 := hmin 0 (Nat.pos_of_ne_zero hne)
          cases h0
        subst hn
        simp
    | false => simp
  | cons c rest ih =>
    simp only [findSub]
    cases hp : pat.isPrefixOf (c :: rest) with
    | true =>
      constructor
      · intro h
        have hn : n = 0 := by simpa using h.symm
        subst hn
        exact ⟨by simpa using hp, fun i hi => absurd hi (Nat.not_lt_zero i)⟩
      · rintro ⟨-, hmin⟩
        have hn : n = 0 := by
          by_contra hne
          have h0 := hmin 0 (Nat.pos_of_ne_zero hne)
          simp only [List.drop_zero] at h0
          rw [h0] at hp
          cases hp
        subst hn
        simp
    | false =>
      rw [if_neg (by simp)]
      cases n with
      | zero =>
        constructor
        · intro h
          rcases Option.map_eq_some'.mp h with ⟨m, -, hm⟩
          omega
        · rintro ⟨hpre, -⟩
          simp only [List.drop_zero] at hpre
          rw [hpre] at hp
          cases hp
      | succ m =>
        rw [Option.map_eq_some']
        constructor
        · rintro ⟨k, hk, hkm⟩
          have hk' : k = m := by omega
          rw [hk'] at hk
          rcases (ih m).mp hk with ⟨hpre, hmin⟩
          refine ⟨by simpa using hpre, ?_⟩
          intro i hi
          cases i with
          | zero => simpa using hp
          | succ j =>
            simp only [List.drop_succ_cons]
            exact hmin j (by omega)
        · rintro ⟨hpre, hmin⟩
          refine ⟨m, (ih m).mpr ⟨by simpa using hpre, ?_⟩, rfl⟩
          intro i hi
          have := hmin (i + 1) (by omega)
          simpa using this

theorem findSub_eq_none_iff (pat s : List Char) :
    findSub pat s = none ↔ ∀ i, pat.isPrefixOf (s.drop i) = false := by
  induction s with
  | nil =>
    simp only [findSub, List.drop_nil]
    cases hp : pat.isPrefixOf [] with
    | true => simp
    | false => simp
  | cons c rest ih =>
    simp only [findSub]
    cases hp : pat.isPrefixOf (c :: rest) with
    | true =>
      constructor
      · intro h
        simp at h
      · intro h
        have h0 := h 0
        simp only [List.drop_zero] at h0
        rw [h0] at hp
        cases hp
    | false =>
      rw [if_neg (by simp), Option.map_eq_none', ih]
      constructor
      · intro h i
        cases i with
        | zero => simpa using hp
        | succ j =>
          simp only [List.drop_succ_cons]
          exact h j
      · intro h j
        have := h (j + 1)
        simpa using this

theorem find?_map_comp {α β : Type} (f : α → β) (p : β → Bool) (l : List α) :
    (l.map f).find? p = (l.find? (fun a => p (f a))).map f := by
  induction l with
  | nil => rfl
  | cons a l ih =>
    simp only [List.map_cons, List.find?]
    cases hpa : p (f a) with
    | true => rfl
    | false => exact ih

theorem findSub_eq_firstOccurrence (pat s : List Char) :
    findSub pat s = firstOccurrence pat s := by
  have hsucc : Nat.succ = fun n : Nat => n + 1 := funext fun n => rfl
  induction s with
  | nil =>
    have hr : List.range 1 = [0] := rfl
    simp only [findSub, firstOccurrence, List.length_nil, Nat.zero_add, hr,
      List.find?, List.drop_nil]
    cases hp : pat.isPrefixOf [] with
    | true => rfl
    | false => rfl
  | cons c rest ih =>
    simp only [findSub, firstOccurrence, List.length_cons]
    rw [List.range_succ_eq_map, hsucc]
    simp only [List.find?, List.drop_zero]
    cases hp : pat.isPrefixOf (c :: rest) with
    | true => rfl
    | false =>
      rw [if_neg (by simp), find?_map_comp]
      simp only [List.drop_succ_cons]
      rw [ih, firstOccurrence]

theorem extract_eq_extractSpec_aux (t : List Char) : extract t = extractSpec t := by
  unfold extract extractSpec fenceContent
  rw [findSub_eq_firstOccurrence]
  cases h1 : firstOccurrence openPat t with
  | none => rfl
  | some i =>
    dsimp only
    rw [findSub_eq_firstOccurrence]
    cases h2 : firstOccurrence closePat (t.drop (i + openPat.length)) with
    | none => rfl
    | some j => rfl

theorem openPat_borders :
    ∀ k, k < openPat.length → 1 ≤ k → (openPat.drop k).isPrefixOf pyBlock = false := by
  decide

theorem closePat_borders :
    ∀ k, k < closePat.length → 1 ≤ k → (closePat.drop k).isPrefixOf closePat = false := by
  decide

theorem closePat_in_blockTail :
    ∀ i, i < 8 → closePat.isPrefixOf (blockTail.drop i) = false := by
  decide

theorem pyBlock_eq : pyBlock = openPat ++ blockTail := by decide

/-- The first occurrence of the opening marker in `p ++ pyBlock ++ s` is at
`p.length` whenever `p` contains no occurrence of the opening marker: one
cannot start inside `p`, and — because no proper suffix of the opening marker
restarts it — none can straddle the boundary either. -/
theorem findSub_openPat_embedded (p s : List Char) (hp : findSub openPat p = none) :
    findSub openPat (p ++ (pyBlock ++ s)) = some p.length := by
  rw [findSub_eq_some_iff]
  constructor
  · rw [List.drop_left, pyBlock_eq, List.append_assoc]
    exact isPrefixOf_append_self openPat (blockTail ++ s)
  · intro i hi
    rw [List.drop_append_of_le_length (Nat.le_of_lt hi)]
    by_cases hc : openPat.length ≤ (p.drop i).length
    · rw [isPrefixOf_append_left _ _ _ hc]
      exact (findSub_eq_none_iff openPat p).mp hp i
    · by_contra hfalse
      have htrue : openPat.isPrefixOf (p.drop i ++ (pyBlock ++ s)) = true := by
        cases hb : openPat.isPrefixOf (p.drop i ++ (pyBlock ++ s)) with
        | true => rfl
        | false => exact absurd hb hfalse
      have hsplit := isPrefixOf_append_split htrue (Nat.lt_of_not_le hc)
      have hlen2 : (openPat.drop (p.drop i).length).length ≤ pyBlock.length := by
        rw [List.length_drop]
        have h10 : openPat.length = 10 := by decide
        have h23 : pyBlock.length = 22 := by decide
        omega
      rw [isPrefixOf_append_left _ _ _ hlen2] at hsplit
      have hk1 : 1 ≤ (p.drop i).length := by
        rw [List.length_drop]
        omega
      have hborder := openPat_borders (p.drop i).length (Nat.lt_of_not_le hc) hk1
      rw [hborder] at hsplit
      cases hsplit

/-- The first occurrence of the closing marker in `blockTail ++ s` is at 8,
right after `print(1)`. -/
theorem findSub_closePat_blockTail (s : List Char) :
    findSub closePat (blockTail ++ s) = some 8 := by
  rw [findSub_eq_some_iff]
  constructor
  · have h8 : blockTail.drop 8 = closePat := by decide
    rw [List.drop_append_of_le_length (by decide), h8]
    exact isPrefixOf_append_self closePat s
  · intro i hi
    have hle : i ≤ blockTail.length := by
      have : blockTail.length = 12 := by decide
      omega
    rw [List.drop_append_of_le_length hle]
    have hlen : closePat.length ≤ (blockTail.drop i).length := by
      rw [List.length_drop]
      have h12 : blockTail.length = 12 := by decide
      have h4 : closePat.length = 4 := by decide
      omega
    rw [isPrefixOf_append_left _ _ _ hlen]
    exact closePat_in_blockTail i hi

/-- The amended embedded-block property: when the preceding prose contains no
occurrence of the opening marker, extraction of `p ++ "```python\nprint(1)\n```" ++ s`
returns exactly `print(1)`, whatever `p` and `s` otherwise are. -/
theorem extract_embedded_block (p s : List Char) (hp : findSub openPat p = none) :
    extract (p ++ pyBlock ++ s) = "print(1)".data := by
  rw [List.append_assoc]
  have hopen := findSub_openPat_embedded p s hp
  have hrest : (p ++ (pyBlock ++ s)).drop (p.length + openPat.length) = blockTail ++ s := by
    have hu : p ++ (pyBlock ++ s) = (p ++ openPat) ++ (blockTail ++ s) := by
      rw [pyBlock_eq, List.append_assoc, List.append_assoc]
    have hlen : p.length + openPat.length = (p ++ openPat).length := by
      rw [List.length_append]
    rw [hu, hlen, List.drop_left]
  simp only [extract, fenceContent, hopen, hrest, findSub_closePat_blockTail]
  have htake : (blockTail ++ s).take 8 = "print(1)".data := by
    rw [List.take_append_of_le_length (by decide)]
    decide
  rw [htake]
  decide

/-- Re-extraction of a fenced-wrapped script: when the script contains no
occurrence of the closing marker, the regex recovers exactly the script (and
then trims it). -/
theorem extract_fenceWrap (e : List Char) (h : findSub closePat e = none) :
    extract (fenceWrap e) = pyStrip e := by
  unfold fenceWrap
  rw [List.append_assoc]
  have hopen : findSub openPat (openPat ++ (e ++ closePat)) = some 0 := by
    rw [findSub_eq_some_iff]
    refine ⟨?_, fun i hi => absurd hi (Nat.not_lt_zero i)⟩
    rw [List.drop_zero]
    exact isPrefixOf_append_self openPat (e ++ closePat)
  have hclose : findSub closePat (e ++ closePat) = some e.length := by
    rw [findSub_eq_some_iff]
    constructor
    · rw [List.drop_left]
      exact isPrefixOf_self closePat
    · intro i hi
      rw [List.drop_append_of_le_length (Nat.le_of_lt hi)]
      by_cases hc : closePat.length ≤ (e.drop i).length
      · rw [isPrefixOf_append_left _ _ _ hc]
        exact (findSub_eq_none_iff closePat e).mp h i
      · by_contra hfalse
        have htrue : closePat.isPrefixOf (e.drop i ++ closePat) = true := by
          cases hb : closePat.isPrefixOf (e.drop i ++ closePat) with
          | true => rfl
          | false => exact absurd hb hfalse
        have hsplit := isPrefixOf_append_split htrue (Nat.lt_of_not_le hc)
        have hk1 : 1 ≤ (e.drop i).length := by
          rw [List.length_drop]
          omega
        have hborder := closePat_borders (e.drop i).length (Nat.lt_of_not_le hc) hk1
        rw [hborder] at hsplit
        cases hsplit
  have hrest : (openPat ++ (e ++ closePat)).drop (0 + openPat.length) = e ++ closePat := by
    rw [Nat.zero_add, List.drop_left]
  simp only [extract, fenceContent, hopen, hrest, hclose, List.take_left]

theorem splitOnChar_ne_nil (sep : Char) (s : List Char) : splitOnChar sep s ≠ [] := by
  cases s with
  | nil => simp [splitOnChar]
  | cons c rest =>
    simp only [splitOnChar]
    cases h : splitOnChar sep rest with
    | nil => simp
    | cons l ls =>
      by_cases hc : c = sep <;> simp [hc]

theorem joinLines_cons_cons (c : Char) (x : List Char) (ls : List (List Char)) :
    joinLines ((c :: x) :: ls) = c :: joinLines (x :: ls) := by
  cases ls with
  | nil => rfl
  | cons y r => simp [joinLines]

theorem joinLines_splitLines (s : List Char) : joinLines (splitLines s) = s := by
  induction s with
  | nil => rfl
  | cons c rest ih =>
    simp only [splitLines, splitOnChar] at *
    cases h : splitOnChar '\n' rest with
    | nil => exact absurd h (splitOnChar_ne_nil '\n' rest)
    | cons l ls =>
      rw [h] at ih
      dsimp only
      by_cases hc : c = '\n'
      · subst hc
        rw [if_pos rfl]
        have hj : joinLines ([] :: l :: ls) = [] ++ '\n' :: joinLines (l :: ls) := rfl
        rw [hj, List.nil_append, ih]
      · rw [if_neg hc, joinLines_cons_cons, ih]

theorem fsLookup_append_single (fs : Fs) (pt : List (List Char)) (c : List Char)
    (path : List (List Char)) :
    fsLookup (fs ++ [(pt, c)]) path
      = if pt = path then some c else fsLookup fs path := by
  simp only [fsLookup, List.reverse_append, List.reverse_cons, List.reverse_nil,
    List.nil_append, List.cons_append, List.find?]
  by_cases h : pt = path
  · simp [h]
  · simp [h]

theorem foldl_processPart_questions (wd : List (List Char)) (parts : List FormPart) :
    ∀ st : LoopState,
      (parts.foldl (processPart wd) st).questions
        = (lastMatch (fun p => decide (p.filename = qtxtName)) parts).elim
            st.questions FormPart.content := by
  induction parts with
  | nil => intro st; rfl
  | cons p ps ih =>
    intro st
    simp only [List.foldl_cons, lastMatch]
    cases h : lastMatch (fun q => decide (q.filename = qtxtName)) ps with
    | some q =>
      rw [ih, h]
      rfl
    | none =>
      rw [ih, h]
      by_cases hq : p.filename = qtxtName
      · have hne : qtxtName ≠ [] := by decide
        simp [processPart, hq, hne]
      · have hne : qtxtName ≠ [] := by decide
        by_cases h0 : p.filename = []
        · simp [processPart, h0, hq, hne]
        · simp [processPart, h0, hq, hne]

theorem foldl_processPart_fsLookup (wd : List (List Char)) (parts : List FormPart) :
    ∀ (st : LoopState) (path : List (List Char)),
      fsLookup (parts.foldl (processPart wd) st).fs path
        = (lastMatch
            (fun p => !decide (p.filename = []) && decide (resolvePath wd p.filename = path))
            parts).elim (fsLookup st.fs path) (fun p => some p.content) := by
  induction parts with
  | nil => intro st path; rfl
  | cons p ps ih =>
    intro st path
    simp only [List.foldl_cons, lastMatch]
    cases h : lastMatch
        (fun q => !decide (q.filename = []) && decide (resolvePath wd q.filename = path)) ps with
    | some q =>
      rw [ih, h]
      rfl
    | none =>
      rw [ih, h]
      by_cases h0 : p.filename = []
      · simp [processPart, h0]
      · by_cases h1 : resolvePath wd p.filename = path
        · simp only [processPart, if_neg h0]
          rw [fsLookup_append_single]
          simp [h0, h1]
        · simp only [processPart, if_neg h0]
          rw [fsLookup_append_single]
          simp [h0, h1]

/-- C1: for every request to POST /api/ — whatever the form parts, the LLM
outcome and the execution outcome, hence on the success path and on every
fault path (missing task description, script timeout, non-zero exit, invalid
JSON, LLM failure) — the session's workspace directory does not exist once the
handler completes: the `finally` block always deletes it. -/
theorem C1_workspace_cleanup (parse : List Char → Option JsonVal)
    (wd : List (List Char)) (inp : AgentInput) :
    (handlerModel parse wd inp).workspaceExists = false := rfl

/-- C2: the result-validation block maps a timeout to a raised
`HTTPException(504)`, a non-zero exit to a direct 500 response whose body has
the keys `"error"` and `"stderr"` (carrying the captured stderr), and a zero
exit to the parse of the trimmed stdout — 200 with the JSON value verbatim
when it parses, a raised `HTTPException(500)` otherwise.  However the
*delivered* HTTP status for a timeout is 500, not 504: the handler's own
blanket `except Exception` catches the `HTTPException(504)` and re-raises it
with status 500. -/
theorem C2_validator_mapping_and_delivered_status :
    (∀ parse po pe,
        resultValidator parse (.timeout po pe) = .error (.http 504 timeoutMsg))
  ∧ (∀ parse wd parts llm po pe,
        (handlerModel parse wd ⟨parts, llm, .timeout po pe⟩).response.1 = 500)
  ∧ (∀ parse c out err,
        resultValidator parse (.exited (c + 1) out err)
          = .ok (500, .obj [("error".data, .str execFailMsg),
                            ("stderr".data, .str err)]))
  ∧ (∀ parse out err,
        resultValidator parse (.exited 0 out err)
          = (parse (pyStrip out)).elim
              (.error (.http 500 invalidMsg)) (fun v => .ok (200, v))) := by
  refine ⟨fun _ _ _ => rfl, ?_, fun _ _ _ _ => rfl, ?_⟩
  · intro parse wd parts llm po pe
    unfold handlerModel handlerBody
    by_cases hq : (parts.foldl (processPart wd) initLoop).questions = []
    · simp [hq, wrapResponse]
    · cases llm with
      | error m => simp [hq, wrapResponse]
      | ok t => simp [hq, wrapResponse, resultValidator]
  · intro parse out err
    have hred : resultValidator parse (.exited 0 out err)
        = match parse (pyStrip out) with
          | some v => .ok (200, v)
          | none => .error (.http 500 invalidMsg) := rfl
    rw [hred]
    cases parse (pyStrip out) with
    | none => rfl
    | some v => rfl

/-- C3 (amended): the extractor follows the spec's fixed fallback order — it
agrees everywhere with `extractSpec`, the spec-worded first-occurrence search
(fenced interior, trimmed; else the heuristic line span); when neither marker
is found the result is the entire trimmed output; and the concrete block
`"```python\nprint(1)\n```"` embedded in surrounding prose extracts to exactly
`"print(1)"` *provided the preceding prose contains no occurrence of the
opening marker* (the first fenced block in the text wins otherwise). -/
theorem C3_extractor_fallback_order :
    (∀ t, extract t = extractSpec t)
  ∧ (∀ p s, findSub openPat p = none →
        extract (p ++ pyBlock ++ s) = "print(1)".data)
  ∧ (∀ t, fenceContent t = none →
        firstStartIdx (splitLines (pyStrip t)) = none →
        scanBack (splitLines (pyStrip t)) 0 ((splitLines (pyStrip t)).length - 1) = none →
        extract t = pyStrip t) := by
  refine ⟨extract_eq_extractSpec_aux, extract_embedded_block, ?_⟩
  intro t hfence hstart hend
  have hlen : 1 ≤ (splitLines (pyStrip t)).length :=
    List.length_pos.mpr (splitOnChar_ne_nil '\n' (pyStrip t))
  simp only [extract, hfence, extractFallback, hstart, Option.getD_none, Nat.sub_zero,
    List.drop_zero]
  rw [hend]
  simp only [Option.getD_none]
  have harith : (splitLines (pyStrip t)).length - 1 + 1 = (splitLines (pyStrip t)).length := by
    omega
  rw [harith, List.take_length, joinLines_splitLines]

/-- C3 counterexample: the input is the required block embedded in surrounding
prose (the prose itself containing an earlier complete fenced block), yet
extraction returns the first block's interior `"x"`, not `"print(1)"`. -/
theorem C3_counterexample :
    "```python\nx\n```\n```python\nprint(1)\n```".data
        = "```python\nx\n```\n".data ++ pyBlock ++ ([] : List Char)
    ∧ extract "```python\nx\n```\n```python\nprint(1)\n```".data = "x".data
    ∧ "x".data ≠ "print(1)".data := by
  refine ⟨by decide, by decide, by decide⟩

/-- C3 witness: concrete instances of the amended embedded-block property and
of the neither-marker case. -/
theorem C3_witness :
    extract ("Sure, here is the code:\n".data ++ pyBlock ++ "\nHope this helps.".data)
        = "print(1)".data
    ∧ extract "no code markers here".data = pyStrip "no code markers here".data := by
  constructor
  · exact C3_extractor_fallback_order.2.1 "Sure, here is the code:\n".data
      "\nHope this helps.".data (by decide)
  · exact C3_extractor_fallback_order.2.2 "no code markers here".data
      (by decide) (by decide) (by decide)

/-- C4: the upload loop performs no artifact-name validation.  A part named
`"../../secret.txt"` is written, resolves outside the session workspace
(`/tmp/sess1`), survives the `finally` cleanup of the workspace, and the
request raises no InvalidArtifactName error (the response is the
missing-questions failure, nothing about the name). -/
theorem C4_traversal_written_outside :
    (handlerModel parseTest wd0
        ⟨[⟨"../../secret.txt".data, "gotcha".data⟩], .ok "t".data,
          .exited 0 "1".data []⟩).fsAfter
      = [(["secret.txt".data], "gotcha".data)]
    ∧ wd0.isPrefixOf ["secret.txt".data] = false
    ∧ (handlerModel parseTest wd0
        ⟨[⟨"../../secret.txt".data, "gotcha".data⟩], .ok "t".data,
          .exited 0 "1".data []⟩).response.1 = 500 := by
  refine ⟨rfl, by decide, rfl⟩

/-- C5 (amended): the task-description part is selected by *case-sensitive*
exact match against `"questions.txt"` — the last such part's content becomes
the task description (collisions overwrite) — and every part with a non-empty
filename is written verbatim at the path obtained by joining the workspace
directory with its filename; the content stored at any path is that of the
last part written there. -/
theorem C5_exact_match_selection (wd : List (List Char)) (parts : List FormPart) :
    ((parts.foldl (processPart wd) initLoop).questions
        = (lastMatch (fun p => decide (p.filename = qtxtName)) parts).elim
            [] FormPart.content)
    ∧ ∀ path, fsLookup (parts.foldl (processPart wd) initLoop).fs path
        = (lastMatch
            (fun p => !decide (p.filename = []) && decide (resolvePath wd p.filename = path))
            parts).map FormPart.content := by
  constructor
  · exact foldl_processPart_questions wd parts initLoop
  · intro path
    rw [foldl_processPart_fsLookup wd parts initLoop path]
    cases lastMatch
        (fun p => !decide (p.filename = []) && decide (resolvePath wd p.filename = path))
        parts with
    | none => rfl
    | some q => rfl

/-- C5 counterexample: a part named `"QUESTIONS.TXT"` is *not* matched
case-insensitively — its content never becomes the task description, and the
request fails as if the task description were missing (status 500, the
wrapped missing-questions error), while the same part named exactly
`"questions.txt"` makes the request succeed with status 200. -/
theorem C5_counterexample :
    (([⟨"QUESTIONS.TXT".data, "what".data⟩] : List FormPart).foldl
        (processPart wd0) initLoop).questions = []
    ∧ (handlerModel parseTest wd0
        ⟨[⟨"QUESTIONS.TXT".data, "what".data⟩], .ok "t".data,
          .exited 0 "1".data []⟩).response.1 = 500
    ∧ (handlerModel parseTest wd0
        ⟨[⟨"questions.txt".data, "what".data⟩], .ok "t".data,
          .exited 0 "1".data []⟩).response = (200, .int 1) := by
  refine ⟨rfl, rfl, rfl⟩

/-- C6: with no `questions.txt` part supplied, the handler's behaviour is
independent of the LLM and of the execution outcome (no LLM call is made, no
execution is attempted), and the raised error is `HTTPException(400)` — but
the *delivered* status is 500, because the blanket `except Exception`
re-raises the 400 as a 500. -/
theorem C6_missing_questions_behavior :
    (∀ parse wd llm exec llm' exec',
        handlerModel parse wd ⟨[⟨"data.csv".data, "a".data⟩], llm, exec⟩
          = handlerModel parse wd ⟨[⟨"data.csv".data, "a".data⟩], llm', exec'⟩)
  ∧ (∀ parse wd llm exec,
        (handlerBody parse wd ⟨[⟨"data.csv".data, "a".data⟩], llm, exec⟩).1
          = .error (.http 400 missingMsg))
  ∧ (∀ parse wd llm exec,
        (handlerModel parse wd ⟨[⟨"data.csv".data, "a".data⟩], llm, exec⟩).response.1
          = 500) := by
  refine ⟨fun _ _ _ _ _ _ => rfl, fun _ _ _ _ => rfl, fun _ _ _ _ => rfl⟩

/-- C7: the captured stderr never influences the response except on a non-zero
exit: on timeout and on zero exit the whole handler result is independent of
the error channel; on non-zero exit the validator returns exactly the 500 body
carrying stderr, independent of stdout; and the only JSON parse the pipeline
performs takes the trimmed *stdout* as its argument. -/
theorem C7_stderr_isolation :
    (∀ parse po pe po' pe',
        resultValidator parse (.timeout po pe) = resultValidator parse (.timeout po' pe'))
  ∧ (∀ parse out err err',
        resultValidator parse (.exited 0 out err)
          = resultValidator parse (.exited 0 out err'))
  ∧ (∀ parse c out out' err,
        resultValidator parse (.exited (c + 1) out err)
          = resultValidator parse (.exited (c + 1) out' err))
  ∧ (∀ parse wd parts llm po pe po' pe',
        handlerModel parse wd ⟨parts, llm, .timeout po pe⟩
          = handlerModel parse wd ⟨parts, llm, .timeout po' pe'⟩)
  ∧ (∀ parse wd parts llm out err err',
        handlerModel parse wd ⟨parts, llm, .exited 0 out err⟩
          = handlerModel parse wd ⟨parts, llm, .exited 0 out err'⟩) := by
  refine ⟨fun _ _ _ _ _ => rfl, fun _ _ _ _ => rfl, fun _ _ _ _ _ => rfl, ?_, ?_⟩
  · intro parse wd parts llm po pe po' pe'
    unfold handlerModel handlerBody
    by_cases hq : (parts.foldl (processPart wd) initLoop).questions = []
    · simp [hq]
    · cases llm with
      | error m => simp [hq]
      | ok t => simp [hq, resultValidator]
  · intro parse wd parts llm out err err'
    unfold handlerModel handlerBody
    by_cases hq : (parts.foldl (processPart wd) initLoop).questions = []
    · simp [hq]
    · cases llm with
      | error m => simp [hq]
      | ok t => simp [hq, resultValidator]

/-- C8 (amended): re-extraction after fence-wrapping is the identity on the
extractor's output *provided* that output contains no occurrence of the
closing marker `"\n```"` and is unchanged by trimming; without those side
conditions the wrapped text's first closing marker or the final trim changes
the result. -/
theorem C8_idempotent_on_clean_output (t : List Char)
    (h1 : pyStrip (extract t) = extract t)
    (h2 : findSub closePat (extract t) = none) :
    extract (fenceWrap (extract t)) = extract t :=
  (extract_fenceWrap (extract t) h2).trans h1

/-- C8 counterexample: for `t = "x\n  import json"` the extractor returns the
indented line `"  import json"`; wrapping it in fences and re-extracting trims
it to `"import json"`, so `extract (fence (extract t)) ≠ extract t`. -/
theorem C8_counterexample :
    extract (fenceWrap (extract "x\n  import json".data))
      ≠ extract "x\n  import json".data := by
  decide

/-- C8 witness: a clean extractor output satisfying both side conditions. -/
theorem C8_witness :
    extract (fenceWrap (extract "```python\nprint(2)\n```".data))
      = extract "```python\nprint(2)\n```".data :=
  C8_idempotent_on_clean_output "```python\nprint(2)\n```".data (by decide) (by decide)

/-- C10: a `questions.txt` part with empty content leaves the whole handler
result literally equal to that of a request with no parts at all (treated the
same as missing, before any LLM call); the raised error is the 400
missing-questions exception, delivered — like the missing case — as a 500 by
the blanket `except`; and a part with a falsy filename is skipped without any
write. -/
theorem C10_empty_questions_and_skipped_parts :
    (∀ parse llm exec,
        handlerModel parse wd0 ⟨[⟨qtxtName, []⟩], llm, exec⟩
          = handlerModel parse wd0 ⟨[], llm, exec⟩)
  ∧ (∀ parse llm exec,
        (handlerBody parse wd0 ⟨[⟨qtxtName, []⟩], llm, exec⟩).1
          = .error (.http 400 missingMsg))
  ∧ (∀ parse llm exec,
        (handlerModel parse wd0 ⟨[⟨qtxtName, []⟩], llm, exec⟩).response.1 = 500)
  ∧ (∀ (wd : List (List Char)) (st : LoopState) (content : List Char),
        processPart wd st ⟨[], content⟩ = st) := by
  refine ⟨fun _ _ _ => rfl, fun _ _ _ => rfl, fun _ _ _ => rfl, fun _ _ _ => rfl⟩

end DAA
